import Mathlib

/-!
# Verification of the kubectl-ips pod-IP listing pipeline

Shallow embedding of the `pkg/cmd` package of `kubectl-ips`: the pod-to-IP
extractor, the (namespace, name, ip) sorter, the field formatters, the table
builder and the output renderers, together with the option completion,
validation and run pipeline of the cobra command.

External collaborators (the Kubernetes API client, the generic tabular/JSON/
YAML printers, the label-selector parser, the human-duration formatter and the
Go standard-library sorting routine) are modelled by their documented
interfaces; everything else is translated line by line from the Go source.
-/

/-! ## Data model

`corev1.Pod` fields read by the code.  Strings model Go strings (byte-wise
lexicographic `<` on UTF-8 agrees with Lean's code-point order on `String`).
Timestamps are modelled as `Option Nat` seconds (`none` models the zero time).
`Status.PodIPs` entries carry only their `IP` field, so they are plain strings.
`ObjectMeta.Labels` is a Go map; it is modelled as an association list in the
(unspecified) iteration order of the map.
-/

structure ContainerStateWaiting where
  Reason : String
  deriving DecidableEq

structure ContainerStateTerminated where
  ExitCode : Int
  Signal : Int
  Reason : String
  deriving DecidableEq

/-- Container state: at most one of `Waiting`/`Running`/`Terminated` is set;
the code only tests `Running` against nil, so it carries no payload. -/
structure ContainerState where
  Waiting : Option ContainerStateWaiting
  Running : Option Unit
  Terminated : Option ContainerStateTerminated
  deriving DecidableEq

structure ContainerStatus where
  State : ContainerState
  Ready : Bool
  RestartCount : Int
  deriving DecidableEq

structure PodSpec where
  NodeName : String
  deriving DecidableEq

structure PodStatus where
  Phase : String
  Reason : String
  PodIP : String
  PodIPs : List String
  InitContainerStatuses : List ContainerStatus
  ContainerStatuses : List ContainerStatus
  deriving DecidableEq

structure Pod where
  Namespace : String
  Name : String
  Labels : List (String × String)
  CreationTimestamp : Option Nat
  DeletionTimestamp : Option Nat
  Spec : PodSpec
  Status : PodStatus
  deriving DecidableEq

/-- `podIPWithPod` from `pkg/cmd/table.go`. -/
structure podIPWithPod where
  pod : Pod
  ip : String
  deriving DecidableEq

/-! ## Constants (`pkg/cmd/ips.go`, `pkg/cmd/format.go`) -/

def jsonFormat : String := "json"
def yamlFormat : String := "yaml"
def nameFormat : String := "name"
def tableFormat : String := "table"
def wideFormat : String := "wide"

def noneValue : String := "<none>"
def unknownValue : String := "<unknown>"

/-- `ErrUnsupportedFormat = errors.New("unsupported output format")`. -/
def ErrUnsupportedFormat : String := "unsupported output format"

/-! ## Extractor (`extractPodIPsWithPods`, `pkg/cmd/table.go`)

The Go function threads a `uniqueIPs map[string]bool` through the whole loop
over `pods.Items`; it is modelled as a `List String` of seen IPs passed in
accumulator style.  `extractSecondary` is the inner `for _, ip := range
pod.Status.PodIPs` loop, `extractPod` the body of the outer loop for one pod,
and `extractGoPairs` the outer loop itself.
-/

def extractSecondary (pod : Pod) : List String → List String →
    List podIPWithPod × List String
  | [], seen => ([], seen)
  | ip :: rest, seen =>
    if ip ≠ "" ∧ ¬ ip ∈ seen then
      ((⟨pod, ip⟩ : podIPWithPod) :: (extractSecondary pod rest (ip :: seen)).1,
        (extractSecondary pod rest (ip :: seen)).2)
    else
      extractSecondary pod rest seen

def extractPod (p : Pod) (seen : List String) :
    List podIPWithPod × List String :=
  if p.Status.PodIP ≠ "" then
    ((⟨p, p.Status.PodIP⟩ : podIPWithPod) ::
        (extractSecondary p p.Status.PodIPs (p.Status.PodIP :: seen)).1,
      (extractSecondary p p.Status.PodIPs (p.Status.PodIP :: seen)).2)
  else
    extractSecondary p p.Status.PodIPs seen

def extractGoPairs : List Pod → List String → List podIPWithPod × List String
  | [], seen => ([], seen)
  | p :: rest, seen =>
    ((extractPod p seen).1 ++ (extractGoPairs rest (extractPod p seen).2).1,
      (extractGoPairs rest (extractPod p seen).2).2)

def extractPodIPsWithPods (pods : List Pod) : List podIPWithPod :=
  (extractGoPairs pods []).1

/-- The pairs contributed by one pod, given the set of IPs seen so far. -/
def podChunk (seen : List String) (p : Pod) : List podIPWithPod :=
  (extractPod p seen).1

/-- The seen-IP set after processing one pod. -/
def podSeen (seen : List String) (p : Pod) : List String :=
  (extractPod p seen).2

/-- The per-pod chunks of the extractor output, in input order. -/
def extractChunksFrom : List Pod → List String → List (List podIPWithPod)
  | [], _ => []
  | p :: rest, seen => podChunk seen p :: extractChunksFrom rest (podSeen seen p)

/-! ## Sorter (`sortPodIPsWithPods`, `pkg/cmd/table.go`)

The Go code passes the comparator below to `sort.Slice` of the standard
library.  `sort.Slice` is external code; its documented contract is: the slice
is permuted so that no later element is `less` than an earlier one, and the
sort is NOT guaranteed to be stable.  `SortSliceSpec` states exactly that
contract; `sortPodIPsWithPods` is an executable model satisfying it
(`sortPodIPsWithPods_meets_spec` below), and on inputs whose (namespace, name,
ip) keys are pairwise distinct the contract determines the output uniquely, so
there the model agrees with any conforming implementation.
-/

/-- Lexicographic strict comparison of character lists (Char code points). -/
def goCharsLt : List Char → List Char → Bool
  | _, [] => false
  | [], _ :: _ => true
  | a :: as, b :: bs =>
    if a < b then true else if b < a then false else goCharsLt as bs

/-- Go's `<` on strings: byte-wise lexicographic comparison of the UTF-8
encodings, which coincides with code-point-wise comparison. -/
def goStringLt (a b : String) : Bool := goCharsLt a.data b.data

/-- The comparator closure passed to `sort.Slice`. -/
def lessFunc (a b : podIPWithPod) : Bool :=
  if a.pod.Namespace ≠ b.pod.Namespace then
    goStringLt a.pod.Namespace b.pod.Namespace
  else if a.pod.Name ≠ b.pod.Name then
    goStringLt a.pod.Name b.pod.Name
  else
    goStringLt a.ip b.ip

/-- The non-strict order induced by the comparator (`sort.Slice` sortedness). -/
def sortLe (a b : podIPWithPod) : Bool := ! lessFunc b a

/-- Documented contract of `sort.Slice`: the output is a permutation of the
input in which no element is `less` than one that precedes it. -/
def SortSliceSpec (input output : List podIPWithPod) : Prop :=
  output.Perm input ∧ output.Pairwise fun a b => lessFunc b a = false

/-- The non-strict order as a relation, for the sorting lemmas. -/
def sortLeR (a b : podIPWithPod) : Prop := sortLe a b = true

instance : DecidableRel sortLeR := fun a b => by unfold sortLeR; infer_instance

/-- Executable model of the `sort.Slice` call. -/
def sortPodIPsWithPods (podIPs : List podIPWithPod) : List podIPWithPod :=
  podIPs.insertionSort sortLeR

/-- The sort key of a pair: (namespace, pod name, ip). -/
def sortKey (pr : podIPWithPod) : String × String × String :=
  (pr.pod.Namespace, pr.pod.Name, pr.ip)

/-- Lexicographic strict order on sort keys, as the spec words it:
namespace first, then pod name, then IP string. -/
def keyLt (x y : String × String × String) : Prop :=
  goStringLt x.1 y.1 = true ∨
    (x.1 = y.1 ∧ (goStringLt x.2.1 y.2.1 = true ∨
      (x.2.1 = y.2.1 ∧ goStringLt x.2.2 y.2.2 = true)))

/-- Lexicographic non-strict order on sort keys. -/
def keyLe (a b : podIPWithPod) : Prop :=
  keyLt (sortKey a) (sortKey b) ∨ sortKey a = sortKey b

instance (x y : String × String × String) : Decidable (keyLt x y) := by
  unfold keyLt; infer_instance

instance (a b : podIPWithPod) : Decidable (keyLe a b) := by
  unfold keyLe; infer_instance

/-- Pairwise-distinct sort keys: the contract output is unique under this. -/
def KeysDistinct (l : List podIPWithPod) : Prop :=
  l.Pairwise fun a b => sortKey a ≠ sortKey b

instance (l : List podIPWithPod) : Decidable (KeysDistinct l) := by
  unfold KeysDistinct; infer_instance

/-! ## Field formatters (`pkg/cmd/format.go`)

`FormatPodAge` calls `time.Since`; the current instant is passed explicitly as
`now` (seconds).  `duration.HumanDuration` belongs to an external Kubernetes
utility library; no claim depends on its text, so it is modelled as an opaque
but executable rendering of the elapsed seconds.
-/

/-- Models the external `k8s.io/apimachinery/pkg/util/duration.HumanDuration`
(not part of this repository); no claim inspects its output. -/
def HumanDuration (seconds : Nat) : String :=
  toString seconds ++ "s"

def FormatPodAge (now : Nat) (pod : Pod) : String :=
  match pod.CreationTimestamp with
  | none => unknownValue
  | some t => HumanDuration (now - t)

def formatInitTerminatedReason (t : ContainerStateTerminated) : String :=
  if t.Reason = "" then
    if t.Signal ≠ 0 then "Init:Signal:" ++ toString t.Signal
    else "Init:ExitCode:" ++ toString t.ExitCode
  else "Init:" ++ t.Reason

/-- The loop body of `checkInitContainers`; `i` is the running index and
`total` the length of `InitContainerStatuses`.  Returns `some reason` when the
Go function returns `(reason, true)` and `none` when it falls through. -/
def checkInitLoop (total : Nat) : List ContainerStatus → Nat → Option String
  | [], _ => none
  | c :: rest, i =>
    match c.State.Terminated with
    | some t =>
      if t.ExitCode = 0 then checkInitLoop total rest (i + 1)
      else some (formatInitTerminatedReason t)
    | none =>
      match c.State.Waiting with
      | some w =>
        if w.Reason ≠ "" ∧ w.Reason ≠ "PodInitializing" then
          some ("Init:" ++ w.Reason)
        else some ("Init:" ++ toString i ++ "/" ++ toString total)
      | none => some ("Init:" ++ toString i ++ "/" ++ toString total)

def checkInitContainers (pod : Pod) : Option String :=
  checkInitLoop pod.Status.InitContainerStatuses.length
    pod.Status.InitContainerStatuses 0

def formatTerminatedReason (t : ContainerStateTerminated) : String :=
  if t.Signal ≠ 0 then "Signal:" ++ toString t.Signal
  else "ExitCode:" ++ toString t.ExitCode

def getContainerReason (c : ContainerStatus) : String :=
  match c.State.Waiting with
  | some w =>
    if w.Reason ≠ "" then w.Reason
    else match c.State.Terminated with
      | some t => if t.Reason ≠ "" then t.Reason else formatTerminatedReason t
      | none => ""
  | none =>
    match c.State.Terminated with
    | some t => if t.Reason ≠ "" then t.Reason else formatTerminatedReason t
    | none => ""

/-- The reverse-index loop of `checkMainContainers`, applied to the already
reversed status list. -/
def checkMainLoop : List ContainerStatus → String → Bool → String × Bool
  | [], reason, hasRunning => (reason, hasRunning)
  | c :: rest, reason, hasRunning =>
    let newReason := getContainerReason c
    let reason := if newReason ≠ "" then newReason else reason
    let hasRunning := hasRunning || (c.Ready && c.State.Running.isSome)
    checkMainLoop rest reason hasRunning

def checkMainContainers (pod : Pod) (currentReason : String) : String :=
  let result := checkMainLoop pod.Status.ContainerStatuses.reverse currentReason false
  if result.1 = "Completed" ∧ result.2 = true then "Running" else result.1

def handlePodDeletion (pod : Pod) (reason : String) : String :=
  match pod.DeletionTimestamp with
  | some _ => if pod.Status.Reason = "NodeLost" then "Unknown" else "Terminating"
  | none => reason

def FormatPodStatus (pod : Pod) : String :=
  let reason := if pod.Status.Reason ≠ "" then pod.Status.Reason else pod.Status.Phase
  let reason :=
    match checkInitContainers pod with
    | some initReason => initReason
    | none => checkMainContainers pod reason
  handlePodDeletion pod reason

def FormatPodReady (pod : Pod) : String :=
  let readyContainers := (pod.Status.ContainerStatuses.filter fun c => c.Ready).length
  let totalContainers := pod.Status.ContainerStatuses.length
  toString readyContainers ++ "/" ++ toString totalContainers

def FormatRestarts (pod : Pod) : String :=
  toString (pod.Status.ContainerStatuses.foldl (fun acc c => acc + c.RestartCount) 0)

def FormatLabels (labels : List (String × String)) : String :=
  if labels.length = 0 then noneValue
  else String.intercalate "," (labels.map fun kv => kv.1 ++ "=" ++ kv.2)

def GetNodeName (pod : Pod) : String :=
  if pod.Spec.NodeName ≠ "" then pod.Spec.NodeName else noneValue

/-! ## Table builder (`makeTableRow`, `makeTableHeaders`, `generateTable`) -/

/-- `metav1.TableColumnDefinition`; `ColType` models the Go field `Type`
(a Lean keyword). -/
structure TableColumnDefinition where
  Name : String
  ColType : String
  Priority : Int := 0
  deriving DecidableEq

/-- `metav1.TableRow`: formatted cells (all strings here) plus the back
reference to the source pod carried in `Object`. -/
structure TableRow where
  Cells : List String
  ObjectPod : Pod
  deriving DecidableEq

structure Table where
  ColumnDefinitions : List TableColumnDefinition
  Rows : List TableRow
  deriving DecidableEq

def makeTableRow (now : Nat) (pod : Pod) (ip : String)
    (showNamespace wide showLabels : Bool) : List String :=
  let row : List String := []
  let row := if showNamespace then row ++ [pod.Namespace] else row
  let row := row ++ [pod.Name, ip, FormatPodStatus pod]
  let row := if wide then
    row ++ [FormatPodReady pod, FormatRestarts pod, GetNodeName pod] else row
  let row := row ++ [FormatPodAge now pod]
  if showLabels then row ++ [FormatLabels pod.Labels] else row

def makeTableHeaders (showNamespace wide showLabels : Bool) :
    List TableColumnDefinition :=
  let columns : List TableColumnDefinition := []
  let columns := if showNamespace then
    columns ++ [{ Name := "NAMESPACE", ColType := "string" }] else columns
  let columns := columns ++
    [{ Name := "NAME", ColType := "string" },
     { Name := "IP", ColType := "string" },
     { Name := "STATUS", ColType := "string" }]
  let columns := if wide then
    columns ++
      [{ Name := "READY", ColType := "string", Priority := 1 },
       { Name := "RESTARTS", ColType := "string", Priority := 1 },
       { Name := "NODE", ColType := "string", Priority := 1 }] else columns
  let columns := columns ++ [{ Name := "AGE", ColType := "string" }]
  if showLabels then
    columns ++ [{ Name := "LABELS", ColType := "string", Priority := 1 }]
  else columns

def generateTable (now : Nat) (pods : List Pod)
    (showNamespace wide showLabels : Bool) : Table :=
  let podIPList := sortPodIPsWithPods (extractPodIPsWithPods pods)
  { ColumnDefinitions := makeTableHeaders showNamespace wide showLabels
    Rows := podIPList.map fun item =>
      { Cells := makeTableRow now item.pod item.ip showNamespace wide showLabels
        ObjectPod := item.pod } }

/-! ## Printers (`pkg/cmd/printer.go`)

The generic tabular printer and the JSON/YAML encoders are external libraries;
their inputs (the table and the header flag) are captured verbatim in the
`Rendered` value instead of being serialized.  The name-only and IP-only
printers are this repository's code and are modelled down to their text.
-/

inductive Printer where
  | jsonPrinter : Printer
  | yamlPrinter : Printer
  | namePrinter (showNamespace : Bool) : Printer
  | tablePrinter (noHeaders : Bool) : Printer
  deriving DecidableEq

def createPrinter (outputFormat : String) (noHeaders showNamespace : Bool) :
    Except String Printer :=
  if outputFormat = jsonFormat then .ok .jsonPrinter
  else if outputFormat = yamlFormat then .ok .yamlPrinter
  else if outputFormat = nameFormat then .ok (.namePrinter showNamespace)
  else if outputFormat = tableFormat ∨ outputFormat = wideFormat ∨ outputFormat = "" then
    .ok (.tablePrinter noHeaders)
  else .error ErrUnsupportedFormat

/-- `namePrinter.PrintObj`: one line per row with at least two cells. -/
def namePrinterOutput (showNamespace : Bool) (table : Table) : String :=
  String.join (table.Rows.map fun row =>
    if row.Cells.length < 2 then ""
    else if showNamespace then
      row.Cells.getD 0 "" ++ "/" ++ row.Cells.getD 1 "" ++ "\n"
    else row.Cells.getD 0 "" ++ "\n")

/-- The IP strings printed by `ipOnlyPrinter.PrintObj`, in print order. -/
def ipOnlyLines (pods : List Pod) : List String :=
  (sortPodIPsWithPods (extractPodIPsWithPods pods)).map fun item => item.ip

/-- `ipOnlyPrinter.PrintObj`: one line per extracted and sorted pair. -/
def ipOnlyPrinterOutput (pods : List Pod) : String :=
  String.join ((ipOnlyLines pods).map fun ip => ip ++ "\n")

/-! ## Options and run pipeline (`pkg/cmd/ips.go`) -/

/-- The flag fields of `IPsOptions` (`ns` models the Go field `namespace`,
a Lean keyword). -/
structure IPsOptions where
  allNamespaces : Bool
  labelSelector : String
  showIPsOnly : Bool
  ns : String
  outputFormat : String
  noHeaders : Bool
  showLabels : Bool
  deriving DecidableEq

/-- `Complete`: namespace resolution from the `--namespace` flag value and the
config-flags namespace (the flag read itself cannot fail here). -/
def Complete (o : IPsOptions) (flagNamespace : String)
    (configNamespace : Option String) : IPsOptions :=
  let ns := flagNamespace
  let ns := if o.allNamespaces then "" else ns
  let ns :=
    if ns = "" ∧ o.allNamespaces = false then
      match configNamespace with
      | some c => if c ≠ "" then c else "default"
      | none => "default"
    else ns
  { o with ns := ns }

def Validate (outputFormat : String) : Except String Unit :=
  if outputFormat = tableFormat ∨ outputFormat = wideFormat ∨
     outputFormat = jsonFormat ∨ outputFormat = yamlFormat ∨
     outputFormat = nameFormat ∨ outputFormat = "" then .ok ()
  else .error ErrUnsupportedFormat

/-- Models the external `labels.Parse(...).String()` round-trip used only in
the informational message for a non-empty selector; no claim inspects it. -/
def parsedSelectorString (s : String) : String := s

def printNoPodsFoundMessage (o : IPsOptions) : String :=
  let ns := if o.ns = "" then "all namespaces" else o.ns
  let selectorInfo :=
    if o.labelSelector ≠ "" then
      " matching selector \"" ++ parsedSelectorString o.labelSelector ++ "\""
    else ""
  "No pods found in " ++ ns ++ selectorInfo ++ "\n"

/-- What `Run` wrote: the exactly-modelled texts (IP-only, no-pods message,
name output), or the table handed to an external renderer. -/
inductive Rendered where
  | ipOnly (text : String) : Rendered
  | noPods (text : String) : Rendered
  | nameOut (text : String) : Rendered
  | tableOut (table : Table) (noHeaders : Bool) : Rendered
  | jsonOut (table : Table) : Rendered
  | yamlOut (table : Table) : Rendered
  deriving DecidableEq

def printWith (p : Printer) (table : Table) : Rendered :=
  match p with
  | .jsonPrinter => .jsonOut table
  | .yamlPrinter => .yamlOut table
  | .namePrinter showNamespace => .nameOut (namePrinterOutput showNamespace table)
  | .tablePrinter noHeaders => .tableOut table noHeaders

/-- `IPsOptions.Run`, with the pod list returned by the cluster query passed
in as `pods` and the clock as `now`. -/
def Run (now : Nat) (o : IPsOptions) (pods : List Pod) : Except String Rendered :=
  if o.showIPsOnly then .ok (.ipOnly (ipOnlyPrinterOutput pods))
  else if pods.length = 0 then .ok (.noPods (printNoPodsFoundMessage o))
  else if (generateTable now pods o.allNamespaces (o.outputFormat = wideFormat)
      o.showLabels).Rows.length = 0 then
    .ok (.noPods (printNoPodsFoundMessage o))
  else
    match createPrinter o.outputFormat o.noHeaders o.allNamespaces with
    | .error e => .error e
    | .ok p =>
      .ok (printWith p (generateTable now pods o.allNamespaces
        (o.outputFormat = wideFormat) o.showLabels))

/-- The cobra `RunE` chain: `Complete`, then `Validate`, then `Run`.  The
second component records whether the cluster query (inside `Run`) executed. -/
def RunE (now : Nat) (o : IPsOptions) (flagNamespace : String)
    (configNamespace : Option String) (cluster : List Pod) :
    Except String Rendered × Bool :=
  match Validate (Complete o flagNamespace configNamespace).outputFormat with
  | .error e => (.error e, false)
  | .ok _ => (Run now (Complete o flagNamespace configNamespace) cluster, true)

/-- Fixture builder for concrete witnesses and counterexamples: a pod with
the given namespace, name, primary IP and secondary IP list. -/
def mkPod (ns name primary : String) (secondary : List String) : Pod :=
  { Namespace := ns, Name := name, Labels := [], CreationTimestamp := some 0,
    DeletionTimestamp := none, Spec := { NodeName := "" },
    Status := { Phase := "Running", Reason := "", PodIP := primary,
                PodIPs := secondary, InitContainerStatuses := [],
                ContainerStatuses := [] } }

/-- Fixture: replace the node name of a pod, to build two pod records that
agree on namespace, name and IPs but differ elsewhere. -/
def withNode (p : Pod) (node : String) : Pod :=
  { p with Spec := { NodeName := node } }

/-- Fixture builder for concrete option records in witnesses. -/
def mkOptions (allNamespaces : Bool) (labelSelector : String)
    (showIPsOnly : Bool) (ns outputFormat : String)
    (noHeaders showLabels : Bool) : IPsOptions :=
  { allNamespaces := allNamespaces, labelSelector := labelSelector,
    showIPsOnly := showIPsOnly, ns := ns, outputFormat := outputFormat,
    noHeaders := noHeaders, showLabels := showLabels }

/-! ## Order lemmas for the comparator -/

theorem goCharsLt_irrefl : ∀ l : List Char, goCharsLt l l = false
  | [] => rfl
  | a :: as => by
    simp only [goCharsLt, lt_irrefl, if_false]
    exact goCharsLt_irrefl as

theorem goCharsLt_asymm : ∀ {l m : List Char},
    goCharsLt l m = true → goCharsLt m l = false
  | _, [], h => by simp [goCharsLt] at h
  | [], _ :: _, _ => rfl
  | a :: as, b :: bs, h => by
    simp only [goCharsLt] at h ⊢
    rcases lt_trichotomy a b with hab | hab | hab
    · simp [hab, not_lt_of_lt hab]
    · subst hab
      simp only [lt_irrefl, if_false] at h ⊢
      exact goCharsLt_asymm h
    · simp [hab, not_lt_of_lt hab] at h

theorem goCharsLt_conn : ∀ {l m : List Char},
    goCharsLt l m = false → goCharsLt m l = false → l = m
  | [], [], _, _ => rfl
  | [], _ :: _, h, _ => by simp [goCharsLt] at h
  | _ :: _, [], _, h => by simp [goCharsLt] at h
  | a :: as, b :: bs, h, h2 => by
    simp only [goCharsLt] at h h2
    rcases lt_trichotomy a b with hab | hab | hab
    · simp [hab] at h
    · subst hab
      simp only [lt_irrefl, if_false] at h h2
      rw [goCharsLt_conn h h2]
    · simp [hab, not_lt_of_lt hab] at h2

theorem goCharsLt_trans : ∀ {l m n : List Char},
    goCharsLt l m = true → goCharsLt m n = true → goCharsLt l n = true
  | _, _, [], _, h2 => by simp [goCharsLt] at h2
  | _, [], _ :: _, h, _ => by simp [goCharsLt] at h
  | [], _ :: _, _ :: _, _, _ => rfl
  | a :: as, b :: bs, c :: cs, h, h2 => by
    simp only [goCharsLt] at h h2 ⊢
    rcases lt_trichotomy a b with hab | hab | hab
    · rcases lt_trichotomy b c with hbc | hbc | hbc
      · simp [lt_trans hab hbc]
      · subst hbc; simp [hab]
      · simp [hbc, not_lt_of_lt hbc] at h2
    · subst hab
      simp only [lt_irrefl, if_false] at h
      rcases lt_trichotomy a c with hac | hac | hac
      · simp [hac]
      · subst hac
        simp only [lt_irrefl, if_false] at h2 ⊢
        exact goCharsLt_trans h h2
      · simp [hac, not_lt_of_lt hac] at h2
    · simp [hab, not_lt_of_lt hab] at h

theorem goStringLt_irrefl (s : String) : goStringLt s s = false :=
  goCharsLt_irrefl s.data

theorem goStringLt_asymm {s t : String} (h : goStringLt s t = true) :
    goStringLt t s = false :=
  goCharsLt_asymm h

theorem goStringLt_conn {s t : String} (h : goStringLt s t = false)
    (h2 : goStringLt t s = false) : s = t := by
  cases s; cases t
  exact congrArg String.mk (goCharsLt_conn h h2)

theorem goStringLt_trans {s t u : String} (h : goStringLt s t = true)
    (h2 : goStringLt t u = true) : goStringLt s u = true :=
  goCharsLt_trans h h2

theorem keyLt_irrefl (x : String × String × String) : ¬ keyLt x x := by
  rintro (h | ⟨-, h | ⟨-, h⟩⟩) <;> simp [goStringLt_irrefl] at h

theorem keyLt_trans {x y z : String × String × String}
    (h : keyLt x y) (h2 : keyLt y z) : keyLt x z := by
  rcases h with h | ⟨he, h⟩
  · rcases h2 with h2 | ⟨he2, h2⟩
    · exact Or.inl (goStringLt_trans h h2)
    · exact Or.inl (he2 ▸ h)
  · rcases h2 with h2 | ⟨he2, h2⟩
    · exact Or.inl (he ▸ h2)
    · refine Or.inr ⟨he.trans he2, ?_⟩
      rcases h with h | ⟨hn, h⟩
      · rcases h2 with h2 | ⟨hn2, h2⟩
        · exact Or.inl (goStringLt_trans h h2)
        · exact Or.inl (hn2 ▸ h)
      · rcases h2 with h2 | ⟨hn2, h2⟩
        · exact Or.inl (hn ▸ h2)
        · exact Or.inr ⟨hn.trans hn2, goStringLt_trans h h2⟩

theorem keyLt_asymm {x y : String × String × String}
    (h : keyLt x y) : ¬ keyLt y x := fun h2 => keyLt_irrefl x (keyLt_trans h h2)

theorem keyLt_conn {x y : String × String × String}
    (h : ¬ keyLt x y) (h2 : ¬ keyLt y x) : x = y := by
  rcases x with ⟨x1, x2, x3⟩
  rcases y with ⟨y1, y2, y3⟩
  simp only [keyLt, not_or, not_and] at h h2
  have e1 : x1 = y1 := goStringLt_conn (by simpa using h.1) (by simpa using h2.1)
  subst e1
  have h' := h.2 rfl
  have h2' := h2.2 rfl
  simp only [not_or, not_and] at h' h2'
  have e2 : x2 = y2 := goStringLt_conn (by simpa using h'.1) (by simpa using h2'.1)
  subst e2
  have e3 : x3 = y3 :=
    goStringLt_conn (by simpa using h'.2 rfl) (by simpa using h2'.2 rfl)
  rw [e3]

/-- Strict key order is a trichotomy. -/
theorem keyLt_trichotomy (x y : String × String × String) :
    keyLt x y ∨ x = y ∨ keyLt y x := by
  by_cases h : keyLt x y
  · exact Or.inl h
  · by_cases h2 : keyLt y x
    · exact Or.inr (Or.inr h2)
    · exact Or.inr (Or.inl (keyLt_conn h h2))

/-- The Go comparator decides exactly the lexicographic key order. -/
theorem lessFunc_iff_keyLt {a b : podIPWithPod} :
    lessFunc a b = true ↔ keyLt (sortKey a) (sortKey b) := by
  unfold lessFunc keyLt sortKey
  by_cases hns : a.pod.Namespace = b.pod.Namespace
  · by_cases hn : a.pod.Name = b.pod.Name
    · simp [hns, hn, goStringLt_irrefl]
    · simp [hns, hn, goStringLt_irrefl]
  · simp only [ne_eq, hns, not_false_eq_true, if_true]
    constructor
    · intro h; exact Or.inl h
    · rintro (h | ⟨he, -⟩)
      · exact h
      · exact he.elim

theorem lessFunc_false_iff {a b : podIPWithPod} :
    lessFunc a b = false ↔ ¬ keyLt (sortKey a) (sortKey b) := by
  rw [← lessFunc_iff_keyLt]
  simp

/-- Two pairs neither of which is `less` than the other share their key. -/
theorem sortKey_eq_of_not_less {a b : podIPWithPod}
    (h : lessFunc a b = false) (h2 : lessFunc b a = false) :
    sortKey a = sortKey b :=
  keyLt_conn (lessFunc_false_iff.mp h) (lessFunc_false_iff.mp h2)

theorem lessFunc_false_imp_keyLe {a b : podIPWithPod}
    (h : lessFunc b a = false) : keyLe a b := by
  cases hab : lessFunc a b with
  | true => exact Or.inl (lessFunc_iff_keyLt.mp hab)
  | false => exact Or.inr (sortKey_eq_of_not_less hab h)

instance : IsTotal podIPWithPod sortLeR where
  total a b := by
    unfold sortLeR sortLe
    cases hab : lessFunc a b with
    | true =>
      left
      have hba : lessFunc b a = false := by
        rw [lessFunc_false_iff]
        exact keyLt_asymm (lessFunc_iff_keyLt.mp hab)
      simp [hba]
    | false => right; simp [hab]

instance : IsTrans podIPWithPod sortLeR where
  trans a b c hab hbc := by
    unfold sortLeR sortLe at hab hbc ⊢
    simp only [Bool.not_eq_true'] at hab hbc ⊢
    rw [lessFunc_false_iff] at hab hbc ⊢
    intro h
    rcases keyLt_trichotomy (sortKey b) (sortKey c) with hk | hk | hk
    · exact hab (keyLt_trans hk h)
    · exact hab (by rw [hk]; exact h)
    · exact hbc hk

/-! ## Sorting contract lemmas -/

theorem sortPodIPsWithPods_perm (l : List podIPWithPod) :
    (sortPodIPsWithPods l).Perm l :=
  List.perm_insertionSort sortLeR l

theorem sortPodIPsWithPods_sorted (l : List podIPWithPod) :
    (sortPodIPsWithPods l).Sorted sortLeR :=
  List.sorted_insertionSort sortLeR l

/-- The executable model satisfies the `sort.Slice` contract. -/
theorem sortPodIPsWithPods_meets_spec (l : List podIPWithPod) :
    SortSliceSpec l (sortPodIPsWithPods l) := by
  refine ⟨sortPodIPsWithPods_perm l, ?_⟩
  refine (sortPodIPsWithPods_sorted l).imp ?_
  intro a b h
  unfold sortLeR sortLe at h
  simpa using h

/-- Any contract output is sorted in the spec's lexicographic key order. -/
theorem sortSliceSpec_sorted_keyLe {l out : List podIPWithPod}
    (h : SortSliceSpec l out) : out.Sorted keyLe :=
  h.2.imp fun hab => lessFunc_false_imp_keyLe hab

theorem sortSliceSpec_self {l out : List podIPWithPod}
    (h : SortSliceSpec l out) : SortSliceSpec out out :=
  ⟨List.Perm.refl out, h.2⟩

theorem sortKey_ne_symm :
    Symmetric fun a b : podIPWithPod => sortKey a ≠ sortKey b := by
  intro a b hab h2
  exact hab h2.symm

theorem keysDistinct_of_perm {l m : List podIPWithPod}
    (hp : m.Perm l) (h : KeysDistinct l) : KeysDistinct m :=
  (List.Perm.pairwise_iff
    (fun {x y} (h2 : sortKey x ≠ sortKey y) h3 => h2 h3.symm) hp).mpr h

/-- On inputs with pairwise-distinct keys the contract output is unique. -/
theorem sortSliceSpec_unique : ∀ (out₁ l out₂ : List podIPWithPod),
    KeysDistinct l → SortSliceSpec l out₁ → SortSliceSpec l out₂ → out₁ = out₂ := by
  intro out₁
  induction out₁ with
  | nil =>
    intro l out₂ hk h1 h2
    have hl : l = [] := List.perm_nil.mp h1.1.symm
    subst hl
    exact (List.perm_nil.mp h2.1).symm
  | cons a t ih =>
    intro l out₂ hk h1 h2
    cases out₂ with
    | nil =>
      have hl : l = [] := List.perm_nil.mp h2.1.symm
      subst hl
      exact absurd h1.1 (by simp)
    | cons b t₂ =>
      have haIn : a ∈ l := h1.1.subset (List.mem_cons_self a t)
      have hbIn : b ∈ l := h2.1.subset (List.mem_cons_self b t₂)
      have hab : a = b := by
        by_contra hne
        have hbIn1 : b ∈ a :: t := (h1.1.trans h2.1.symm).symm.subset
          (List.mem_cons_self b t₂)
        have haIn2 : a ∈ b :: t₂ := (h2.1.trans h1.1.symm).symm.subset
          (List.mem_cons_self a t)
        have hb : b ∈ t := by
          cases hbIn1 with
          | head => exact absurd rfl (fun h => hne h.symm)
          | tail _ h => exact h
        have ha : a ∈ t₂ := by
          cases haIn2 with
          | head => exact absurd rfl hne
          | tail _ h => exact h
        have h1' : lessFunc b a = false := List.rel_of_pairwise_cons h1.2 hb
        have h2' : lessFunc a b = false := List.rel_of_pairwise_cons h2.2 ha
        have hkey : sortKey a = sortKey b := sortKey_eq_of_not_less h2' h1'
        exact (hk.forall sortKey_ne_symm haIn hbIn hne) hkey
      subst hab
      have hper1 : t.Perm (l.erase a) := by
        have := (List.perm_cons_erase haIn)
        exact (h1.1.trans this).cons_inv
      have hper2 : t₂.Perm (l.erase a) := by
        have := (List.perm_cons_erase haIn)
        exact (h2.1.trans this).cons_inv
      have hk' : KeysDistinct (l.erase a) := hk.sublist (l.erase_sublist a)
      have := ih (l.erase a) t₂ hk' ⟨hper1, h1.2.of_cons⟩ ⟨hper2, h2.2.of_cons⟩
      rw [this]

/-! ## Extractor lemmas -/

theorem extractSecondary_mem (pod : Pod) :
    ∀ (ips seen : List String) (pr : podIPWithPod),
      pr ∈ (extractSecondary pod ips seen).1 →
      pr.pod = pod ∧ pr.ip ∈ ips ∧ pr.ip ≠ "" ∧ pr.ip ∉ seen := by
  intro ips
  induction ips with
  | nil => intro seen pr h; simp [extractSecondary] at h
  | cons ip rest ih =>
    intro seen pr h
    by_cases hc : ip ≠ "" ∧ ¬ ip ∈ seen
    · rw [extractSecondary, if_pos hc] at h
      cases h with
      | head => exact ⟨rfl, List.mem_cons_self ip rest, hc.1, hc.2⟩
      | tail _ h =>
        obtain ⟨h1, h2, h3, h4⟩ := ih (ip :: seen) pr h
        exact ⟨h1, List.mem_cons_of_mem _ h2, h3,
          fun hs => h4 (List.mem_cons_of_mem _ hs)⟩
    · rw [extractSecondary, if_neg hc] at h
      obtain ⟨h1, h2, h3, h4⟩ := ih seen pr h
      exact ⟨h1, List.mem_cons_of_mem _ h2, h3, h4⟩

theorem extractSecondary_mem_of (pod : Pod) :
    ∀ (ips seen : List String) (ip : String),
      ip ∈ ips → ip ≠ "" → ip ∉ seen →
      (⟨pod, ip⟩ : podIPWithPod) ∈ (extractSecondary pod ips seen).1 := by
  intro ips
  induction ips with
  | nil => intro seen ip h; simp at h
  | cons hd rest ih =>
    intro seen ip hmem hne hnseen
    by_cases hc : hd ≠ "" ∧ ¬ hd ∈ seen
    · rw [extractSecondary, if_pos hc]
      by_cases hip : ip = hd
      · subst hip
        exact List.mem_cons_self _ _
      · have hmem' : ip ∈ rest := by
          cases hmem with
          | head => exact absurd rfl hip
          | tail _ h => exact h
        have hnseen' : ip ∉ hd :: seen := by
          intro hs
          cases hs with
          | head => exact hip rfl
          | tail _ hs => exact hnseen hs
        exact List.mem_cons_of_mem _ (ih (hd :: seen) ip hmem' hne hnseen')
    · rw [extractSecondary, if_neg hc]
      have hmem' : ip ∈ rest := by
        cases hmem with
        | head =>
          exfalso
          rcases not_and_or.mp hc with h | h
          · exact hne (by simpa using h)
          · exact hnseen (not_not.mp h)
        | tail _ h => exact h
      exact ih seen ip hmem' hne hnseen

theorem extractSecondary_seen_mem (pod : Pod) :
    ∀ (ips seen : List String) (x : String),
      x ∈ (extractSecondary pod ips seen).2 → x ∈ seen ∨ x ∈ ips := by
  intro ips
  induction ips with
  | nil => intro seen x h; exact Or.inl h
  | cons ip rest ih =>
    intro seen x h
    by_cases hc : ip ≠ "" ∧ ¬ ip ∈ seen
    · rw [extractSecondary, if_pos hc] at h
      rcases ih (ip :: seen) x h with h2 | h2
      · cases h2 with
        | head => exact Or.inr (List.mem_cons_self _ _)
        | tail _ h3 => exact Or.inl h3
      · exact Or.inr (List.mem_cons_of_mem _ h2)
    · rw [extractSecondary, if_neg hc] at h
      rcases ih seen x h with h2 | h2
      · exact Or.inl h2
      · exact Or.inr (List.mem_cons_of_mem _ h2)

theorem extractSecondary_ips_nodup (pod : Pod) :
    ∀ (ips seen : List String),
      (((extractSecondary pod ips seen).1).map podIPWithPod.ip).Nodup := by
  intro ips
  induction ips with
  | nil => intro seen; simp [extractSecondary]
  | cons ip rest ih =>
    intro seen
    by_cases hc : ip ≠ "" ∧ ¬ ip ∈ seen
    · rw [extractSecondary, if_pos hc]
      rw [List.map_cons, List.nodup_cons]
      refine ⟨?_, ih (ip :: seen)⟩
      intro hmem
      obtain ⟨pr, hpr, hip⟩ := List.mem_map.mp hmem
      have := (extractSecondary_mem pod rest (ip :: seen) pr hpr).2.2.2
      exact this (hip ▸ List.mem_cons_self ip seen)
    · rw [extractSecondary, if_neg hc]
      exact ih seen

theorem podChunk_mem {seen : List String} {p : Pod} {pr : podIPWithPod}
    (h : pr ∈ podChunk seen p) :
    pr.pod = p ∧ pr.ip ≠ "" ∧ pr.ip ∈ p.Status.PodIP :: p.Status.PodIPs := by
  unfold podChunk extractPod at h
  by_cases hp : p.Status.PodIP ≠ ""
  · rw [if_pos hp] at h
    cases h with
    | head => exact ⟨rfl, hp, List.mem_cons_self _ _⟩
    | tail _ h =>
      obtain ⟨h1, h2, h3, -⟩ :=
        extractSecondary_mem p p.Status.PodIPs (p.Status.PodIP :: seen) pr h
      exact ⟨h1, h3, List.mem_cons_of_mem _ h2⟩
  · rw [if_neg hp] at h
    obtain ⟨h1, h2, h3, -⟩ := extractSecondary_mem p p.Status.PodIPs seen pr h
    exact ⟨h1, h3, List.mem_cons_of_mem _ h2⟩

theorem podChunk_head {seen : List String} {p : Pod}
    (hp : p.Status.PodIP ≠ "") :
    (podChunk seen p).head? = some ⟨p, p.Status.PodIP⟩ := by
  unfold podChunk extractPod
  rw [if_pos hp]
  rfl

theorem podChunk_primary_mem {seen : List String} {p : Pod}
    (hp : p.Status.PodIP ≠ "") :
    (⟨p, p.Status.PodIP⟩ : podIPWithPod) ∈ podChunk seen p := by
  unfold podChunk extractPod
  rw [if_pos hp]
  exact List.mem_cons_self _ _

theorem podChunk_secondary_mem {seen : List String} {p : Pod} {ip : String}
    (hmem : ip ∈ p.Status.PodIPs) (hne : ip ≠ "") (hnseen : ip ∉ seen) :
    (⟨p, ip⟩ : podIPWithPod) ∈ podChunk seen p := by
  unfold podChunk extractPod
  by_cases hp : p.Status.PodIP ≠ ""
  · rw [if_pos hp]
    by_cases hip : ip = p.Status.PodIP
    · subst hip
      exact List.mem_cons_self _ _
    · have hnseen' : ip ∉ p.Status.PodIP :: seen := by
        intro hs
        cases hs with
        | head => exact hip rfl
        | tail _ hs => exact hnseen hs
      exact List.mem_cons_of_mem _
        (extractSecondary_mem_of p p.Status.PodIPs _ ip hmem hne hnseen')
  · rw [if_neg hp]
    exact extractSecondary_mem_of p p.Status.PodIPs seen ip hmem hne hnseen

theorem podChunk_ips_nodup (seen : List String) (p : Pod) :
    ((podChunk seen p).map podIPWithPod.ip).Nodup := by
  unfold podChunk extractPod
  by_cases hp : p.Status.PodIP ≠ ""
  · rw [if_pos hp]
    rw [List.map_cons, List.nodup_cons]
    refine ⟨?_, extractSecondary_ips_nodup p _ _⟩
    intro hmem
    obtain ⟨pr, hpr, hip⟩ := List.mem_map.mp hmem
    have := (extractSecondary_mem p p.Status.PodIPs
      (p.Status.PodIP :: seen) pr hpr).2.2.2
    exact this (hip ▸ List.mem_cons_self _ seen)
  · rw [if_neg hp]
    exact extractSecondary_ips_nodup p _ _

theorem podSeen_mem {seen : List String} {p : Pod} {x : String}
    (h : x ∈ podSeen seen p) :
    x ∈ seen ∨ x ∈ p.Status.PodIP :: p.Status.PodIPs := by
  unfold podSeen extractPod at h
  by_cases hp : p.Status.PodIP ≠ ""
  · rw [if_pos hp] at h
    rcases extractSecondary_seen_mem p _ _ x h with h2 | h2
    · cases h2 with
      | head => exact Or.inr (List.mem_cons_self _ _)
      | tail _ h3 => exact Or.inl h3
    · exact Or.inr (List.mem_cons_of_mem _ h2)
  · rw [if_neg hp] at h
    rcases extractSecondary_seen_mem p _ _ x h with h2 | h2
    · exact Or.inl h2
    · exact Or.inr (List.mem_cons_of_mem _ h2)

theorem extractGoPairs_fst_eq_flatten :
    ∀ (pods : List Pod) (seen : List String),
      (extractGoPairs pods seen).1 = (extractChunksFrom pods seen).flatten := by
  intro pods
  induction pods with
  | nil => intro seen; rfl
  | cons p rest ih =>
    intro seen
    rw [extractGoPairs, extractChunksFrom, List.flatten_cons, ← ih (podSeen seen p)]
    rfl

theorem extractChunksFrom_forall₂ :
    ∀ (pods : List Pod) (seen : List String),
      List.Forall₂ (fun chunk p =>
        (∀ pr ∈ chunk, pr.pod = p ∧ pr.ip ≠ "") ∧
        (p.Status.PodIP ≠ "" →
          chunk.head? = some (⟨p, p.Status.PodIP⟩ : podIPWithPod)))
        (extractChunksFrom pods seen) pods := by
  intro pods
  induction pods with
  | nil => intro seen; exact List.Forall₂.nil
  | cons p rest ih =>
    intro seen
    rw [extractChunksFrom]
    refine List.Forall₂.cons ⟨?_, fun hp => podChunk_head hp⟩ (ih (podSeen seen p))
    intro pr hpr
    have := podChunk_mem hpr
    exact ⟨this.1, this.2.1⟩

theorem extractGoPairs_primary_mem :
    ∀ (pods : List Pod) (seen : List String) (p : Pod),
      p ∈ pods → p.Status.PodIP ≠ "" →
      (⟨p, p.Status.PodIP⟩ : podIPWithPod) ∈ (extractGoPairs pods seen).1 := by
  intro pods
  induction pods with
  | nil => intro seen p h; exact absurd h (List.not_mem_nil p)
  | cons q rest ih =>
    intro seen p hmem hp
    rw [extractGoPairs]
    cases hmem with
    | head => exact List.mem_append_left _ (podChunk_primary_mem hp)
    | tail _ h => exact List.mem_append_right _ (ih _ p h hp)

/-! ## Table and printer lemmas -/

theorem makeTableRow_cells (now : Nat) (pod : Pod) (ip : String)
    (sn wide sl : Bool) :
    makeTableRow now pod ip sn wide sl =
      (if sn then [pod.Namespace] else []) ++
      [pod.Name, ip, FormatPodStatus pod] ++
      (if wide then [FormatPodReady pod, FormatRestarts pod, GetNodeName pod]
        else []) ++
      [FormatPodAge now pod] ++
      (if sl then [FormatLabels pod.Labels] else []) := by
  cases sn <;> cases wide <;> cases sl <;> simp [makeTableRow]

theorem makeTableHeaders_names (sn wide sl : Bool) :
    (makeTableHeaders sn wide sl).map TableColumnDefinition.Name =
      (if sn then ["NAMESPACE"] else []) ++ ["NAME", "IP", "STATUS"] ++
      (if wide then ["READY", "RESTARTS", "NODE"] else []) ++ ["AGE"] ++
      (if sl then ["LABELS"] else []) := by
  cases sn <;> cases wide <;> cases sl <;> simp [makeTableHeaders]

theorem namespace_mem_headers (sn wide sl : Bool) :
    ("NAMESPACE" ∈ (makeTableHeaders sn wide sl).map TableColumnDefinition.Name)
      ↔ sn = true := by
  cases sn <;> cases wide <;> cases sl <;> decide

theorem makeTableRow_length (now : Nat) (pod : Pod) (ip : String)
    (sn wide sl : Bool) :
    ¬ (makeTableRow now pod ip sn wide sl).length < 2 := by
  rw [makeTableRow_cells]
  cases sn <;> cases wide <;> cases sl <;> simp

theorem makeTableRow_getD_zero_false (now : Nat) (pod : Pod) (ip : String)
    (wide sl : Bool) :
    (makeTableRow now pod ip false wide sl).getD 0 "" = pod.Name := by
  rw [makeTableRow_cells]
  simp

theorem makeTableRow_getD_true (now : Nat) (pod : Pod) (ip : String)
    (wide sl : Bool) :
    (makeTableRow now pod ip true wide sl).getD 0 "" = pod.Namespace ∧
    (makeTableRow now pod ip true wide sl).getD 1 "" = pod.Name := by
  rw [makeTableRow_cells]
  simp

theorem namePrinterOutput_generateTable (now : Nat) (pods : List Pod)
    (sn wide sl : Bool) :
    namePrinterOutput sn (generateTable now pods sn wide sl) =
      String.join ((sortPodIPsWithPods (extractPodIPsWithPods pods)).map
        fun pr => if sn then pr.pod.Namespace ++ "/" ++ pr.pod.Name ++ "\n"
          else pr.pod.Name ++ "\n") := by
  unfold namePrinterOutput generateTable
  rw [List.map_map]
  refine congrArg String.join (List.map_congr_left ?_)
  intro pr _
  simp only [Function.comp]
  rw [if_neg (makeTableRow_length now pr.pod pr.ip sn wide sl)]
  cases sn with
  | false =>
    simp only [Bool.false_eq_true, if_false]
    rw [makeTableRow_getD_zero_false]
  | true =>
    simp only [if_true]
    rw [(makeTableRow_getD_true now pr.pod pr.ip wide sl).1,
      (makeTableRow_getD_true now pr.pod pr.ip wide sl).2]

/-- Inversion: a `tableOut` result carries the generated table. -/
theorem run_tableOut_inv {now : Nat} {o : IPsOptions} {pods : List Pod}
    {t : Table} {nh : Bool}
    (h : Run now o pods = .ok (.tableOut t nh)) :
    t = generateTable now pods o.allNamespaces
      (decide (o.outputFormat = wideFormat)) o.showLabels := by
  unfold Run at h
  split at h
  · simp at h
  · split at h
    · simp at h
    · split at h
      · simp at h
      · split at h
        · simp at h
        · rename_i p hp
          cases p <;> simp [printWith] at h
          exact h.1.symm

/-- Inversion: a `nameOut` result is the name-printer text of the generated
table, with the namespace prefix governed by `allNamespaces`. -/
theorem run_nameOut_inv {now : Nat} {o : IPsOptions} {pods : List Pod}
    {s : String}
    (h : Run now o pods = .ok (.nameOut s)) :
    s = namePrinterOutput o.allNamespaces (generateTable now pods
      o.allNamespaces (decide (o.outputFormat = wideFormat)) o.showLabels) := by
  unfold Run at h
  split at h
  · simp at h
  · split at h
    · simp at h
    · split at h
      · simp at h
      · split at h
        · simp at h
        · rename_i p hp
          cases p with
          | namePrinter sn =>
            simp only [printWith, Except.ok.injEq, Rendered.nameOut.injEq] at h
            have hsn : sn = o.allNamespaces := by
              unfold createPrinter at hp
              split at hp
              · simp at hp
              · split at hp
                · simp at hp
                · split at hp
                  · simp at hp
                    exact hp.symm ▸ rfl
                  · split at hp <;> simp at hp
            rw [← h, hsn]
          | jsonPrinter => simp [printWith] at h
          | yamlPrinter => simp [printWith] at h
          | tablePrinter nh => simp [printWith] at h

/-! ## Claim theorems -/

/-- C4: for every pod whose DeletionTimestamp is set, the formatted status is
"Unknown" when Status.Reason equals "NodeLost" and "Terminating" for every
other reason, regardless of phase or container-derived status. -/
theorem claimC4_deletion_status (pod : Pod)
    (h : pod.DeletionTimestamp ≠ none) :
    FormatPodStatus pod =
      if pod.Status.Reason = "NodeLost" then "Unknown" else "Terminating" := by
  obtain ⟨t, ht⟩ := Option.ne_none_iff_exists'.mp h
  simp [FormatPodStatus, handlePodDeletion, ht]

/-- Witness for C4: a deleted pod with a running phase, a NodeLost reason and
container statuses formats as "Unknown". -/
theorem claimC4_deletion_status_witness :
    (({ mkPod "a" "p" "1.2.3.4" [] with DeletionTimestamp := some 3 } : Pod).DeletionTimestamp ≠ none) ∧
    FormatPodStatus { mkPod "a" "p" "1.2.3.4" [] with DeletionTimestamp := some 3 } =
      (if ({ mkPod "a" "p" "1.2.3.4" [] with DeletionTimestamp := some 3 } : Pod).Status.Reason = "NodeLost"
        then "Unknown" else "Terminating") :=
  ⟨by decide, claimC4_deletion_status _ (by decide)⟩

/-- C5: an output format outside table/wide/json/yaml/name/"" fails at
validation with the "unsupported output format" error before the cluster
query runs; the listed formats pass validation. -/
theorem claimC5_unsupported_format (o : IPsOptions) (flagNs : String)
    (cfgNs : Option String) (now : Nat) (cluster : List Pod) :
    (o.outputFormat ∉ [tableFormat, wideFormat, jsonFormat, yamlFormat, nameFormat, ""] →
      RunE now o flagNs cfgNs cluster = (.error ErrUnsupportedFormat, false)) ∧
    (o.outputFormat ∈ [tableFormat, wideFormat, jsonFormat, yamlFormat, nameFormat, ""] →
      Validate o.outputFormat = .ok () ∧
      (RunE now o flagNs cfgNs cluster).2 = true) := by
  have hof : (Complete o flagNs cfgNs).outputFormat = o.outputFormat := rfl
  constructor
  · intro h
    have hv : Validate o.outputFormat = .error ErrUnsupportedFormat := by
      unfold Validate
      rw [if_neg]
      rintro (h1 | h1 | h1 | h1 | h1 | h1) <;> exact h (by simp [h1])
    unfold RunE
    rw [hof, hv]
  · intro h
    have hc : o.outputFormat = tableFormat ∨ o.outputFormat = wideFormat ∨
        o.outputFormat = jsonFormat ∨ o.outputFormat = yamlFormat ∨
        o.outputFormat = nameFormat ∨ o.outputFormat = "" := by
      simpa using h
    have hv : Validate o.outputFormat = .ok () := by
      unfold Validate
      rw [if_pos hc]
    refine ⟨hv, ?_⟩
    unfold RunE
    rw [hof, hv]

/-- Witness for C5: the format "xml" is rejected before the query and the
format "yaml" passes validation. -/
theorem claimC5_unsupported_format_witness :
    (("xml" : String) ∉ [tableFormat, wideFormat, jsonFormat, yamlFormat, nameFormat, ""]) ∧
    RunE 0 (mkOptions false "" false "" "xml" false false) "" none [] =
      (.error ErrUnsupportedFormat, false) ∧
    Validate "yaml" = .ok () :=
  ⟨by decide,
    (claimC5_unsupported_format (mkOptions false "" false "" "xml" false false)
      "" none 0 []).1 (by decide),
    ((claimC5_unsupported_format (mkOptions false "" false "" "yaml" false false)
      "" none 0 []).2 (by decide)).1⟩

/-- C6: for every flag combination, headers and row cells follow the fixed
order Namespace?, Name, IP, Status, Ready?, Restarts?, Node?, Age, Labels?,
with the optional columns exactly when their flag is set, wide adding exactly
Ready/Restarts/Node, and headers and rows of equal length. -/
theorem claimC6_table_layout (sn wide sl : Bool) (now : Nat) (pod : Pod)
    (ip : String) :
    (makeTableHeaders sn wide sl).map TableColumnDefinition.Name =
      (if sn then ["NAMESPACE"] else []) ++ ["NAME", "IP", "STATUS"] ++
      (if wide then ["READY", "RESTARTS", "NODE"] else []) ++ ["AGE"] ++
      (if sl then ["LABELS"] else []) ∧
    makeTableRow now pod ip sn wide sl =
      (if sn then [pod.Namespace] else []) ++
      [pod.Name, ip, FormatPodStatus pod] ++
      (if wide then [FormatPodReady pod, FormatRestarts pod, GetNodeName pod]
        else []) ++
      [FormatPodAge now pod] ++
      (if sl then [FormatLabels pod.Labels] else []) ∧
    (makeTableHeaders sn wide sl).length =
      (makeTableRow now pod ip sn wide sl).length := by
  refine ⟨makeTableHeaders_names sn wide sl,
    makeTableRow_cells now pod ip sn wide sl, ?_⟩
  have h1 : (makeTableHeaders sn wide sl).length =
      ((makeTableHeaders sn wide sl).map TableColumnDefinition.Name).length :=
    (List.length_map _ _).symm
  rw [h1, makeTableHeaders_names, makeTableRow_cells]
  cases sn <;> cases wide <;> cases sl <;> simp

/-- C7: with all-namespaces set, no IP-only flag and no selector, an empty
pod list is not an error: the run prints exactly
"No pods found in all namespaces\n" and succeeds. -/
theorem claimC7_noPods_allNamespaces (now : Nat) (o : IPsOptions)
    (flagNs : String) (cfgNs : Option String)
    (hA : o.allNamespaces = true) (hS : o.showIPsOnly = false)
    (hL : o.labelSelector = "") :
    Run now (Complete o flagNs cfgNs) [] =
      .ok (.noPods "No pods found in all namespaces\n") := by
  have hns : (Complete o flagNs cfgNs).ns = "" := by
    unfold Complete
    simp [hA]
  have hsel : (Complete o flagNs cfgNs).labelSelector = o.labelSelector := rfl
  have hmsg : printNoPodsFoundMessage (Complete o flagNs cfgNs) =
      "No pods found in all namespaces\n" := by
    unfold printNoPodsFoundMessage
    rw [hns, hsel, hL]
    simp
  have hs : (Complete o flagNs cfgNs).showIPsOnly = o.showIPsOnly := rfl
  unfold Run
  rw [hs, hS, hmsg]
  simp

/-- Witness for C7: a concrete all-namespaces invocation over an empty pod
list prints the message and succeeds. -/
theorem claimC7_noPods_allNamespaces_witness :
    Run 7 (Complete (mkOptions true "" false "ignored" "table" false false)
        "kube-system" none) [] =
      .ok (.noPods "No pods found in all namespaces\n") :=
  claimC7_noPods_allNamespaces 7 _ "kube-system" none rfl rfl rfl

/-- C10: with the IP-only flag, the legacy path runs before the empty-result
check: an empty pod list prints nothing (no "No pods found" message) and the
run succeeds. -/
theorem claimC10_ipOnly_empty (now : Nat) (o : IPsOptions) (flagNs : String)
    (cfgNs : Option String) (h : o.showIPsOnly = true) :
    Run now (Complete o flagNs cfgNs) [] = .ok (.ipOnly "") ∧
    ∀ msg, Run now (Complete o flagNs cfgNs) [] ≠ .ok (.noPods msg) := by
  have hs : (Complete o flagNs cfgNs).showIPsOnly = o.showIPsOnly := rfl
  have hout : Run now (Complete o flagNs cfgNs) [] =
      .ok (.ipOnly (ipOnlyPrinterOutput [])) := by
    unfold Run
    rw [hs, h]
    simp
  have hempty : ipOnlyPrinterOutput ([] : List Pod) = "" := rfl
  rw [hempty] at hout
  refine ⟨hout, fun msg hc => ?_⟩
  rw [hout] at hc
  simp at hc

/-- Witness for C10: a concrete IP-only invocation over an empty pod list
prints nothing and succeeds. -/
theorem claimC10_ipOnly_empty_witness :
    Run 2 (Complete (mkOptions false "" true "default" "table" false false)
        "default" none) [] = .ok (.ipOnly "") ∧
    Run 2 (Complete (mkOptions false "" true "default" "table" false false)
        "default" none) [] ≠ .ok (.noPods "No pods found in default\n") :=
  ⟨(claimC10_ipOnly_empty 2 _ "default" none rfl).1,
    (claimC10_ipOnly_empty 2 _ "default" none rfl).2 _⟩

/-- C1 (amended): duplicate IPs across multiple status fields of the same pod
collapse to one pair, and a pod's primary IP always yields a pair even when
the same IP appeared on an earlier pod; but secondary IPs are deduplicated
against every IP already emitted in the pass, across pod records. -/
theorem claimC1_per_pod_uniqueness (pods : List Pod) (p : Pod)
    (seen : List String) :
    ((podChunk seen p).map podIPWithPod.ip).Nodup ∧
    (p ∈ pods → p.Status.PodIP ≠ "" →
      (⟨p, p.Status.PodIP⟩ : podIPWithPod) ∈ extractPodIPsWithPods pods) :=
  ⟨podChunk_ips_nodup seen p,
    fun hmem hp => extractGoPairs_primary_mem pods [] p hmem hp⟩

/-- Witness for C1: a dual-stack pod whose secondary list repeats the primary
IP yields distinct per-pod IPs, and its primary pair is in the output. -/
theorem claimC1_per_pod_uniqueness_witness :
    ((podChunk [] (mkPod "d" "p" "1.1.1.1" ["1.1.1.1", "fd00::1"])).map
      podIPWithPod.ip).Nodup ∧
    (⟨mkPod "d" "p" "1.1.1.1" ["1.1.1.1", "fd00::1"], "1.1.1.1"⟩ : podIPWithPod) ∈
      extractPodIPsWithPods [mkPod "d" "p" "1.1.1.1" ["1.1.1.1", "fd00::1"]] :=
  ⟨(claimC1_per_pod_uniqueness
      [mkPod "d" "p" "1.1.1.1" ["1.1.1.1", "fd00::1"]]
      (mkPod "d" "p" "1.1.1.1" ["1.1.1.1", "fd00::1"]) []).1,
    (claimC1_per_pod_uniqueness
      [mkPod "d" "p" "1.1.1.1" ["1.1.1.1", "fd00::1"]]
      (mkPod "d" "p" "1.1.1.1" ["1.1.1.1", "fd00::1"]) []).2
      (by decide) (by decide)⟩

/-- Counterexample for C1 as frozen: the same IP on two different pods does
NOT always yield one pair per pod — a second pod whose only (secondary) IP
was already seen on an earlier pod contributes no pair at all. -/
theorem claimC1_cross_pod_cex :
    extractPodIPsWithPods
        [mkPod "ns1" "a" "10.0.0.1" [], mkPod "ns1" "b" "" ["10.0.0.1"]] =
      [⟨mkPod "ns1" "a" "10.0.0.1" [], "10.0.0.1"⟩] ∧
    (∀ pr ∈ extractPodIPsWithPods
        [mkPod "ns1" "a" "10.0.0.1" [], mkPod "ns1" "b" "" ["10.0.0.1"]],
      pr.pod ≠ mkPod "ns1" "b" "" ["10.0.0.1"]) :=
  ⟨by decide, by decide⟩

/-- C8 (amended): the extractor output is the concatenation, in input order,
of one chunk per pod; within a chunk every pair carries that pod and a
non-empty IP, and the primary-IP pair (when the primary IP is non-empty)
comes first.  The extractor is a total function, so it never fails. -/
theorem claimC8_extraction_order (pods : List Pod) (seen : List String) :
    (extractGoPairs pods seen).1 = (extractChunksFrom pods seen).flatten ∧
    extractPodIPsWithPods pods = (extractChunksFrom pods []).flatten ∧
    List.Forall₂ (fun chunk p =>
      (∀ pr ∈ chunk, pr.pod = p ∧ pr.ip ≠ "") ∧
      (p.Status.PodIP ≠ "" →
        chunk.head? = some (⟨p, p.Status.PodIP⟩ : podIPWithPod)))
      (extractChunksFrom pods seen) pods :=
  ⟨extractGoPairs_fst_eq_flatten pods seen,
    extractGoPairs_fst_eq_flatten pods [],
    extractChunksFrom_forall₂ pods seen⟩

/-- Witness for C8: a dual-stack pod with one empty secondary entry yields
its chunk with the primary pair first and the empty entry skipped. -/
theorem claimC8_extraction_order_witness :
    extractPodIPsWithPods [mkPod "d" "q" "10.0.0.5" ["", "fd00::5"]] =
      (extractChunksFrom [mkPod "d" "q" "10.0.0.5" ["", "fd00::5"]] []).flatten ∧
    (podChunk [] (mkPod "d" "q" "10.0.0.5" ["", "fd00::5"])).head? =
      some (⟨mkPod "d" "q" "10.0.0.5" ["", "fd00::5"], "10.0.0.5"⟩ : podIPWithPod) := by
  have h := claimC8_extraction_order [mkPod "d" "q" "10.0.0.5" ["", "fd00::5"]] []
  refine ⟨h.2.1, ?_⟩
  cases h.2.2 with
  | cons h4 _ => exact h4.2 (by decide)

/-- Counterexample for C8 as frozen: a pod with an empty primary IP is not
skipped — its secondary IPs are still extracted. -/
theorem claimC8_empty_primary_cex :
    (mkPod "ns1" "c" "" ["10.0.0.2"]).Status.PodIP = "" ∧
    extractPodIPsWithPods [mkPod "ns1" "c" "" ["10.0.0.2"]] =
      [⟨mkPod "ns1" "c" "" ["10.0.0.2"], "10.0.0.2"⟩] :=
  ⟨rfl, by decide⟩

/-- C2 (amended): every output permitted by the sorting routine's contract is
lexicographically ordered by (namespace, name, ip) and is itself a fixed
point of the contract; when the input's keys are pairwise distinct the output
is unique — it equals the executable model and sorting twice equals sorting
once.  Stability for distinct pairs with tied keys is not guaranteed. -/
theorem claimC2_sorter_contract (l out : List podIPWithPod)
    (h : SortSliceSpec l out) :
    out.Sorted keyLe ∧ SortSliceSpec out out ∧
    (KeysDistinct l → out = sortPodIPsWithPods l ∧
      sortPodIPsWithPods out = out) := by
  refine ⟨sortSliceSpec_sorted_keyLe h, sortSliceSpec_self h, fun hk => ?_⟩
  refine ⟨sortSliceSpec_unique out l (sortPodIPsWithPods l) hk h
    (sortPodIPsWithPods_meets_spec l), ?_⟩
  have hk2 : KeysDistinct out := keysDistinct_of_perm h.1 hk
  exact sortSliceSpec_unique (sortPodIPsWithPods out) out out hk2
    (sortPodIPsWithPods_meets_spec out) (sortSliceSpec_self h)

/-- Witness for C2: a concrete two-element input with distinct keys has a
sorted, idempotent and unique output. -/
theorem claimC2_sorter_contract_witness :
    SortSliceSpec
      [⟨mkPod "b" "y" "2.2.2.2" [], "2.2.2.2"⟩,
        ⟨mkPod "a" "x" "1.1.1.1" [], "1.1.1.1"⟩]
      (sortPodIPsWithPods
        [⟨mkPod "b" "y" "2.2.2.2" [], "2.2.2.2"⟩,
          ⟨mkPod "a" "x" "1.1.1.1" [], "1.1.1.1"⟩]) ∧
    (sortPodIPsWithPods
      [⟨mkPod "b" "y" "2.2.2.2" [], "2.2.2.2"⟩,
        ⟨mkPod "a" "x" "1.1.1.1" [], "1.1.1.1"⟩]).Sorted keyLe ∧
    sortPodIPsWithPods (sortPodIPsWithPods
      [⟨mkPod "b" "y" "2.2.2.2" [], "2.2.2.2"⟩,
        ⟨mkPod "a" "x" "1.1.1.1" [], "1.1.1.1"⟩]) =
      sortPodIPsWithPods
        [⟨mkPod "b" "y" "2.2.2.2" [], "2.2.2.2"⟩,
          ⟨mkPod "a" "x" "1.1.1.1" [], "1.1.1.1"⟩] := by
  have hspec := sortPodIPsWithPods_meets_spec
    [⟨mkPod "b" "y" "2.2.2.2" [], "2.2.2.2"⟩,
      ⟨mkPod "a" "x" "1.1.1.1" [], "1.1.1.1"⟩]
  have h := claimC2_sorter_contract _ _ hspec
  exact ⟨hspec, h.1, (h.2.2 (by decide)).2⟩

/-- Counterexample for C2 as frozen: the `sort.Slice` contract admits an
output reversing two distinct pairs with identical (namespace, name, ip)
keys, so equal keys are not guaranteed to keep their prior relative order. -/
theorem claimC2_unstable_cex :
    SortSliceSpec
      [⟨withNode (mkPod "a" "p" "1.1.1.1" []) "n1", "1.1.1.1"⟩,
        ⟨withNode (mkPod "a" "p" "1.1.1.1" []) "n2", "1.1.1.1"⟩]
      [⟨withNode (mkPod "a" "p" "1.1.1.1" []) "n2", "1.1.1.1"⟩,
        ⟨withNode (mkPod "a" "p" "1.1.1.1" []) "n1", "1.1.1.1"⟩] ∧
    sortKey ⟨withNode (mkPod "a" "p" "1.1.1.1" []) "n1", "1.1.1.1"⟩ =
      sortKey ⟨withNode (mkPod "a" "p" "1.1.1.1" []) "n2", "1.1.1.1"⟩ ∧
    (⟨withNode (mkPod "a" "p" "1.1.1.1" []) "n1", "1.1.1.1"⟩ : podIPWithPod) ≠
      ⟨withNode (mkPod "a" "p" "1.1.1.1" []) "n2", "1.1.1.1"⟩ :=
  ⟨⟨by decide, by decide⟩, by decide, by decide⟩

/-- C9: the NAMESPACE column of a rendered table appears exactly when
all-namespaces is set, and name output prints bare pod names for a
single-namespace invocation and namespace-prefixed names otherwise. -/
theorem claimC9_namespace_column (now : Nat) (o : IPsOptions)
    (pods : List Pod) :
    (∀ t nh, Run now o pods = .ok (.tableOut t nh) →
      (("NAMESPACE" ∈ t.ColumnDefinitions.map TableColumnDefinition.Name) ↔
        o.allNamespaces = true)) ∧
    (∀ s, Run now o pods = .ok (.nameOut s) → o.allNamespaces = false →
      s = String.join ((sortPodIPsWithPods (extractPodIPsWithPods pods)).map
        fun pr => pr.pod.Name ++ "\n")) ∧
    (∀ s, Run now o pods = .ok (.nameOut s) → o.allNamespaces = true →
      s = String.join ((sortPodIPsWithPods (extractPodIPsWithPods pods)).map
        fun pr => pr.pod.Namespace ++ "/" ++ pr.pod.Name ++ "\n")) := by
  refine ⟨?_, ?_, ?_⟩
  · intro t nh h
    rw [run_tableOut_inv h]
    unfold generateTable
    simpa using namespace_mem_headers o.allNamespaces
      (decide (o.outputFormat = wideFormat)) o.showLabels
  · intro s h hA
    rw [run_nameOut_inv h, hA, namePrinterOutput_generateTable]
    simp
  · intro s h hA
    rw [run_nameOut_inv h, hA, namePrinterOutput_generateTable]
    simp

/-- Witness for C9: with all-namespaces and table output the NAMESPACE column
is present; with a single namespace and name output the printed text is the
bare pod name. -/
theorem claimC9_namespace_column_witness :
    (("NAMESPACE" ∈ (generateTable 0 [mkPod "ns1" "p1" "10.0.0.1" []]
        (mkOptions true "" false "" "table" false false).allNamespaces
        (decide ((mkOptions true "" false "" "table" false false).outputFormat
          = wideFormat))
        (mkOptions true "" false "" "table" false false).showLabels).ColumnDefinitions.map
        TableColumnDefinition.Name) ↔
      (mkOptions true "" false "" "table" false false).allNamespaces = true) ∧
    namePrinterOutput false (generateTable 0 [mkPod "ns1" "p1" "10.0.0.1" []]
        (mkOptions false "" false "default" "name" false false).allNamespaces
        (decide ((mkOptions false "" false "default" "name" false
          false).outputFormat = wideFormat))
        (mkOptions false "" false "default" "name" false false).showLabels) =
      String.join ((sortPodIPsWithPods (extractPodIPsWithPods
        [mkPod "ns1" "p1" "10.0.0.1" []])).map fun pr => pr.pod.Name ++ "\n") :=
  ⟨(claimC9_namespace_column 0 (mkOptions true "" false "" "table" false false)
      [mkPod "ns1" "p1" "10.0.0.1" []]).1 _ false rfl,
    (claimC9_namespace_column 0 (mkOptions false "" false "default" "name"
      false false) [mkPod "ns1" "p1" "10.0.0.1" []]).2.1 _ rfl rfl⟩

/-- The extractor output for a two-pod list is the two chunks in order. -/
theorem extract_pair (p1 p2 : Pod) :
    extractPodIPsWithPods [p1, p2] =
      podChunk [] p1 ++ podChunk (podSeen [] p1) p2 := by
  simp [extractPodIPsWithPods, extractGoPairs, podChunk, podSeen]

/-- C3 (amended): with the IP-only flag, for two pods sharing no IPs the
program prints exactly the pods' distinct non-empty IPs, one per line, each
exactly once, with the underlying pairs in (namespace, name, ip)
lexicographic order — not in plain IP order. -/
theorem claimC3_ipOnly_two_pods (p1 p2 : Pod)
    (hdisj : ∀ ip ∈ p1.Status.PodIP :: p1.Status.PodIPs, ip ≠ "" →
      ip ∉ p2.Status.PodIP :: p2.Status.PodIPs) :
    (ipOnlyLines [p1, p2]).Nodup ∧
    (∀ ip, ip ∈ ipOnlyLines [p1, p2] ↔ (ip ≠ "" ∧
      (ip ∈ p1.Status.PodIP :: p1.Status.PodIPs ∨
        ip ∈ p2.Status.PodIP :: p2.Status.PodIPs))) ∧
    List.Sorted keyLe (sortPodIPsWithPods (extractPodIPsWithPods [p1, p2])) ∧
    ipOnlyPrinterOutput [p1, p2] =
      String.join ((ipOnlyLines [p1, p2]).map fun ip => ip ++ "\n") ∧
    (∀ (now : Nat) (o : IPsOptions), o.showIPsOnly = true →
      Run now o [p1, p2] = .ok (.ipOnly (ipOnlyPrinterOutput [p1, p2]))) := by
  have hperm : (sortPodIPsWithPods (extractPodIPsWithPods [p1, p2])).Perm
      (extractPodIPsWithPods [p1, p2]) := sortPodIPsWithPods_perm _
  have hpair := extract_pair p1 p2
  have hseen1 : ∀ x ∈ podSeen [] p1,
      x ∈ p1.Status.PodIP :: p1.Status.PodIPs := by
    intro x hx
    rcases podSeen_mem hx with h | h
    · exact absurd h (List.not_mem_nil x)
    · exact h
  have hmemE : ∀ pr : podIPWithPod, pr ∈ extractPodIPsWithPods [p1, p2] →
      pr.ip ≠ "" ∧ (pr.ip ∈ p1.Status.PodIP :: p1.Status.PodIPs ∨
        pr.ip ∈ p2.Status.PodIP :: p2.Status.PodIPs) := by
    intro pr hpr
    rw [hpair] at hpr
    rcases List.mem_append.mp hpr with h | h
    · have hf := podChunk_mem h
      exact ⟨hf.2.1, Or.inl hf.2.2⟩
    · have hf := podChunk_mem h
      exact ⟨hf.2.1, Or.inr hf.2.2⟩
  have hmemI : ∀ ip : String, ip ≠ "" →
      (ip ∈ p1.Status.PodIP :: p1.Status.PodIPs ∨
        ip ∈ p2.Status.PodIP :: p2.Status.PodIPs) →
      ∃ pr : podIPWithPod, pr ∈ extractPodIPsWithPods [p1, p2] ∧ pr.ip = ip := by
    intro ip hne h
    rw [hpair]
    rcases h with h | h
    · cases h with
      | head =>
        exact ⟨⟨p1, p1.Status.PodIP⟩,
          List.mem_append_left _ (podChunk_primary_mem hne), rfl⟩
      | tail _ h2 =>
        exact ⟨⟨p1, ip⟩, List.mem_append_left _
          (podChunk_secondary_mem h2 hne (List.not_mem_nil ip)), rfl⟩
    · have hnotin1 : ip ∉ p1.Status.PodIP :: p1.Status.PodIPs :=
        fun hin => hdisj ip hin hne h
      have hnseen : ip ∉ podSeen [] p1 := fun hx => hnotin1 (hseen1 ip hx)
      cases h with
      | head =>
        exact ⟨⟨p2, p2.Status.PodIP⟩,
          List.mem_append_right _ (podChunk_primary_mem hne), rfl⟩
      | tail _ h2 =>
        exact ⟨⟨p2, ip⟩, List.mem_append_right _
          (podChunk_secondary_mem h2 hne hnseen), rfl⟩
  have hnodupE : ((extractPodIPsWithPods [p1, p2]).map podIPWithPod.ip).Nodup := by
    rw [hpair, List.map_append, List.nodup_append]
    refine ⟨podChunk_ips_nodup [] p1, podChunk_ips_nodup _ p2, ?_⟩
    intro x hx1 hx2
    obtain ⟨pr1, hpr1, hip1⟩ := List.mem_map.mp hx1
    obtain ⟨pr2, hpr2, hip2⟩ := List.mem_map.mp hx2
    have f1 := podChunk_mem hpr1
    have f2 := podChunk_mem hpr2
    exact hdisj x (hip1 ▸ f1.2.2) (hip1 ▸ f1.2.1) (hip2 ▸ f2.2.2)
  have hmapPerm : (ipOnlyLines [p1, p2]).Perm
      ((extractPodIPsWithPods [p1, p2]).map podIPWithPod.ip) :=
    hperm.map podIPWithPod.ip
  refine ⟨hmapPerm.nodup_iff.mpr hnodupE, ?_, ?_, rfl, ?_⟩
  · intro ip
    constructor
    · intro hip
      obtain ⟨pr, hpr, hipr⟩ := List.mem_map.mp hip
      exact hipr ▸ hmemE pr (hperm.subset hpr)
    · rintro ⟨hne, hor⟩
      obtain ⟨pr, hpr, hipr⟩ := hmemI ip hne hor
      exact List.mem_map.mpr ⟨pr, hperm.symm.subset hpr, hipr⟩
  · exact sortSliceSpec_sorted_keyLe (sortPodIPsWithPods_meets_spec _)
  · intro now o h
    unfold Run
    rw [h]
    simp

/-- Witness for C3: two disjoint pods, one dual-stack; the printed lines are
distinct, complete, and the run output matches the IP-only printer. -/
theorem claimC3_ipOnly_two_pods_witness :
    (∀ ip ∈ (mkPod "w1" "a" "3.3.3.3" ["fd00::3"]).Status.PodIP ::
        (mkPod "w1" "a" "3.3.3.3" ["fd00::3"]).Status.PodIPs, ip ≠ "" →
      ip ∉ (mkPod "w1" "b" "2.2.2.2" []).Status.PodIP ::
        (mkPod "w1" "b" "2.2.2.2" []).Status.PodIPs) ∧
    (ipOnlyLines [mkPod "w1" "a" "3.3.3.3" ["fd00::3"],
      mkPod "w1" "b" "2.2.2.2" []]).Nodup ∧
    ("3.3.3.3" ∈ ipOnlyLines [mkPod "w1" "a" "3.3.3.3" ["fd00::3"],
        mkPod "w1" "b" "2.2.2.2" []] ↔ (("3.3.3.3" : String) ≠ "" ∧
      ("3.3.3.3" ∈ (mkPod "w1" "a" "3.3.3.3" ["fd00::3"]).Status.PodIP ::
          (mkPod "w1" "a" "3.3.3.3" ["fd00::3"]).Status.PodIPs ∨
        "3.3.3.3" ∈ (mkPod "w1" "b" "2.2.2.2" []).Status.PodIP ::
          (mkPod "w1" "b" "2.2.2.2" []).Status.PodIPs))) ∧
    List.Sorted keyLe (sortPodIPsWithPods (extractPodIPsWithPods
      [mkPod "w1" "a" "3.3.3.3" ["fd00::3"], mkPod "w1" "b" "2.2.2.2" []])) ∧
    Run 0 (mkOptions false "" true "d" "table" false false)
        [mkPod "w1" "a" "3.3.3.3" ["fd00::3"], mkPod "w1" "b" "2.2.2.2" []] =
      .ok (.ipOnly (ipOnlyPrinterOutput [mkPod "w1" "a" "3.3.3.3" ["fd00::3"],
        mkPod "w1" "b" "2.2.2.2" []])) := by
  have h := claimC3_ipOnly_two_pods (mkPod "w1" "a" "3.3.3.3" ["fd00::3"])
    (mkPod "w1" "b" "2.2.2.2" []) (by decide)
  exact ⟨by decide, h.1, h.2.1 "3.3.3.3", h.2.2.1, h.2.2.2.2 0 _ rfl⟩

/-- Counterexample for C3 as frozen: two pods sharing no IPs print in
(namespace, name, ip) order, which here is not lexicographic IP order. -/
theorem claimC3_not_ip_sorted_cex :
    ipOnlyLines [mkPod "a" "a" "9.9.9.9" [], mkPod "a" "b" "1.1.1.1" []] =
      ["9.9.9.9", "1.1.1.1"] ∧
    ipOnlyPrinterOutput [mkPod "a" "a" "9.9.9.9" [], mkPod "a" "b" "1.1.1.1" []] =
      "9.9.9.9\n1.1.1.1\n" ∧
    ¬ List.Pairwise (fun a b : String => goStringLt b a = false)
      (ipOnlyLines [mkPod "a" "a" "9.9.9.9" [], mkPod "a" "b" "1.1.1.1" []]) :=
  ⟨by decide, by decide, by decide⟩
